import Mathlib

/-!
Verification of the honeyelb ingestion pipeline core: the file-backed
dedup store (`state/state.go`), the per-format event parsers and their
sampling stages (`publisher/elb.go`, `publisher/cloudfront.go` and the
older CloudFront parser variant), and the publisher orchestration
(`publisher/publisher.go`).

The Go code is shallowly embedded: the state file's contents are an
`Option (List String)` (`none` meaning the file does not exist), machine
integers are `Int`, channels and goroutines are replaced by an oracle
`resp : Nat → Option Event` telling, for the k-th submitted line, whether
the tokenizer delivers its event before the per-line deadline, and
`rand.Intn` is an oracle `intn : Int → Int`.
-/

/-- `maxProcessedObjects` from `state/state.go`: cap on the dedup list. -/
def maxProcessedObjects : Nat := 20000

/-- Contents of the per-service state file; `none` = the file does not
exist yet. The JSON (un)marshalling of a list of strings is modelled as
the identity, so the read/write error paths of the Go code collapse to
the success branches. -/
structure StateFile where
  contents : Option (List String)
  deriving DecidableEq, Repr

/-- `FileStater.processedObjects` (and its public wrapper
`ProcessedObjects`, which only adds locking): if the state file does not
exist, write `[]` to it and return the empty list; otherwise return the
unmarshalled list. Returns the read list together with the state file
left on disk. -/
def processedObjects : StateFile → Except String (List String) × StateFile
  | ⟨none⟩ => (Except.ok [], ⟨some []⟩)
  | ⟨some objs⟩ => (Except.ok objs, ⟨some objs⟩)

/-- `FileStater.SetProcessed`: read the current list (creating the file
if absent), append the object, drop the oldest entry if the cap is
exceeded, and persist the new list. -/
def SetProcessed (fs : StateFile) (object : String) : Except String Unit × StateFile :=
  match processedObjects fs with
  | (Except.error e, fs') => (Except.error e, fs')
  | (Except.ok objs, _) =>
    let objs := objs ++ [object]
    let objs := if objs.length > maxProcessedObjects then objs.drop 1 else objs
    (Except.ok (), ⟨some objs⟩)

/-- Run a whole sequence of `SetProcessed` calls against an initially
absent state file. -/
def runSetProcessed (ids : List String) : StateFile :=
  ids.foldl (fun fs i => (SetProcessed fs i).2) ⟨none⟩

lemma setProcessed_some (s : List String) (x : String) :
    (SetProcessed ⟨some s⟩ x).2
      = ⟨some (if (s ++ [x]).length > maxProcessedObjects then (s ++ [x]).drop 1 else s ++ [x])⟩ := rfl

lemma foldl_setProcessed (t : List String) :
    ∀ s : List String, s.length ≤ maxProcessedObjects →
      List.foldl (fun fs i => (SetProcessed fs i).2) ⟨some s⟩ t
        = ⟨some ((s ++ t).drop (s.length + t.length - maxProcessedObjects))⟩ := by
  induction t with
  | nil =>
    intro s hs
    simp [Nat.sub_eq_zero_of_le hs]
  | cons a t ih =>
    intro s hs
    rw [List.foldl_cons, setProcessed_some]
    rcases lt_or_eq_of_le hs with hlt | heq
    · rw [if_neg (by
        simp only [List.length_append, List.length_cons, List.length_nil]; omega)]
      rw [ih (s ++ [a]) (by
        simp only [List.length_append, List.length_cons, List.length_nil]; omega)]
      have h1 : s ++ [a] ++ t = s ++ a :: t := by simp
      have h2 : (s ++ [a]).length + t.length - maxProcessedObjects
          = s.length + (a :: t).length - maxProcessedObjects := by
        simp only [List.length_append, List.length_cons, List.length_nil]
        omega
      rw [h1, h2]
    · rw [if_pos (by
        simp only [List.length_append, List.length_cons, List.length_nil]; omega)]
      rw [ih ((s ++ [a]).drop 1) (by
        simp only [List.length_drop, List.length_append, List.length_cons,
          List.length_nil]
        omega)]
      have hlen : 1 ≤ (s ++ [a]).length := by
        simp only [List.length_append, List.length_cons, List.length_nil]
        omega
      have hdrop : (s ++ [a]).drop 1 ++ t = (s ++ a :: t).drop 1 := by
        rw [← List.drop_append_of_le_length hlen]
        simp
      rw [hdrop, List.drop_drop]
      have h3 : 1 + (((s ++ [a]).drop 1).length + t.length - maxProcessedObjects)
          = s.length + (a :: t).length - maxProcessedObjects := by
        simp only [List.length_drop, List.length_append, List.length_cons,
          List.length_nil]
        omega
      rw [h3]

/-- C1: starting from an absent (or empty) backing state, after any
sequence of `SetProcessed` calls the surviving entries are exactly the
most recent `maxProcessedObjects` inserted identifiers in insertion
order (the list is the suffix of the insertion sequence obtained by
dropping the oldest overflow entries, FIFO), and in particular the
length of the list returned by `processedObjects` never exceeds
`maxProcessedObjects`. -/
theorem dedup_bound_fifo (ids : List String) :
    (processedObjects (runSetProcessed ids)).1
        = Except.ok (ids.drop (ids.length - maxProcessedObjects)) ∧
    (processedObjects
        (ids.foldl (fun fs i => (SetProcessed fs i).2) ⟨some []⟩)).1
        = Except.ok (ids.drop (ids.length - maxProcessedObjects)) ∧
    (ids.drop (ids.length - maxProcessedObjects)).length ≤ maxProcessedObjects := by
  have hrun : ∀ init : StateFile, init = ⟨none⟩ ∨ init = ⟨some []⟩ →
      (processedObjects (ids.foldl (fun fs i => (SetProcessed fs i).2) init)).1
        = Except.ok (ids.drop (ids.length - maxProcessedObjects)) := by
    intro init hinit
    cases ids with
    | nil =>
      rcases hinit with h | h <;> subst h <;> simp [processedObjects]
    | cons a t =>
      have hfirst : ∀ x, (SetProcessed init x).2 = ⟨some [x]⟩ := by
        intro x
        rcases hinit with h | h <;> subst h <;> rfl
      rw [List.foldl_cons, hfirst a, foldl_setProcessed t [a] (by
        simp only [List.length_cons, List.length_nil, maxProcessedObjects]
        omega)]
      have h4 : ([a] ++ t).drop ([a].length + t.length - maxProcessedObjects)
          = (a :: t).drop ((a :: t).length - maxProcessedObjects) := by
        have h5 : [a].length + t.length = (a :: t).length := by
          simp only [List.length_cons, List.length_nil]
          omega
        rw [List.singleton_append, h5]
      rw [h4]
      rfl
  refine ⟨hrun ⟨none⟩ (Or.inl rfl), hrun ⟨some []⟩ (Or.inr rfl), ?_⟩
  simp only [List.length_drop]
  omega

/-- C7: after `SetProcessed x` returns successfully, a fresh store
reading the same backing state file sees a list that contains `x` (the
freshly appended entry is never the one evicted). -/
theorem durability_round_trip (fs : StateFile) (x : String) :
    (SetProcessed fs x).1 = Except.ok () ∧
    ∃ l, (processedObjects (SetProcessed fs x).2).1 = Except.ok l ∧ x ∈ l := by
  obtain ⟨c⟩ := fs
  have key : ∀ s : List String,
      x ∈ if (s ++ [x]).length > maxProcessedObjects then (s ++ [x]).drop 1 else s ++ [x] := by
    intro s
    by_cases h : (s ++ [x]).length > maxProcessedObjects
    · rw [if_pos h]
      have hs : 1 ≤ s.length := by
        simp [maxProcessedObjects] at h ⊢
        omega
      rw [List.drop_append_of_le_length hs]
      simp
    · rw [if_neg h]
      simp
  cases c with
  | none =>
    refine ⟨rfl, ?_⟩
    refine ⟨_, rfl, ?_⟩
    exact key []
  | some s =>
    refine ⟨rfl, ?_⟩
    refine ⟨_, rfl, ?_⟩
    exact key s

/-- C9: when the backing state file does not exist, `processedObjects`
creates it containing the empty JSON array and returns the empty list
with no error; the read step inside `SetProcessed` likewise succeeds on
an absent file, so the first run succeeds and persists the singleton
list. -/
theorem first_run_initializes :
    processedObjects ⟨none⟩ = (Except.ok [], ⟨some []⟩) ∧
    ∀ x, SetProcessed ⟨none⟩ x = (Except.ok (), ⟨some [x]⟩) := by
  exact ⟨rfl, fun x => rfl⟩

/-!
Sampling stage. `honeytail`'s `event.Event` is embedded with its data
map as an association list of dynamically typed values; `rand.Intn` is
an oracle `intn : Int → Int` and the estimator `GetSampleRate` an oracle
`String → Int`.
-/

/-- A dynamically typed value stored in an event's data map
(`interface{}` in Go): the sampling code only distinguishes `int`,
`string` and everything else. -/
inductive FieldValue where
  | int (n : Int)
  | str (s : String)
  | other
  deriving DecidableEq, Repr

/-- `event.Event`: timestamp, data map, sample rate. -/
structure Event where
  timestamp : Int
  data : List (String × FieldValue)
  sampleRate : Int
  deriving DecidableEq, Repr

/-- Key derivation inside `ELBEventParser.DynSample`
(`publisher/elb.go`): `backend_status_code` (decimal, with sentinel
`"0"` for a present non-int value), then `_` + `elb_status_code` when it
is an int, then `_` + `elb` when it is a string. -/
def elbSampleKey (data : List (String × FieldValue)) : String :=
  let key := ""
  let key := match data.lookup "backend_status_code" with
    | some (FieldValue.int bsc) => toString bsc
    | some _ => "0"
    | none => key
  let key := match data.lookup "elb_status_code" with
    | some (FieldValue.int esc) => key ++ "_" ++ toString esc
    | _ => key
  let key := match data.lookup "elb" with
    | some (FieldValue.str name) => key ++ "_" ++ name
    | _ => key
  key

/-- Key derivation inside `CloudFrontEventParser.DynSample`
(`publisher/cloudfront.go`, identical in the older variant): `sc-status`
(decimal, sentinel `"0"` for non-int), then `_` + `cs` when it is a
string. -/
def cfSampleKey (data : List (String × FieldValue)) : String :=
  let key := ""
  let key := match data.lookup "sc-status" with
    | some (FieldValue.int bsc) => toString bsc
    | some _ => "0"
    | none => key
  let key := match data.lookup "cs" with
    | some (FieldValue.str name) => key ++ "_" ++ name
    | _ => key
  key

/-- The `if rate <= 0 { rate = 1 }` clamp shared by every `DynSample`. -/
def clampRate (rate : Int) : Int := if rate ≤ 0 then 1 else rate

/-- One iteration of `ELBEventParser.DynSample` on one event: look up
the rate for the event's key, clamp it, draw `intn rate`, and forward
the event with its sample rate set iff the draw is `0` (`none` = the
event is dropped). -/
def elbDynSample (getSampleRate : String → Int) (intn : Int → Int) (ev : Event) :
    Option Event :=
  let rate := clampRate (getSampleRate (elbSampleKey ev.data))
  if intn rate = 0 then some { ev with sampleRate := rate } else none

/-- One iteration of `CloudFrontEventParser.DynSample`
(`publisher/cloudfront.go`): same accept/drop policy as the ELB variant,
with the CloudFront key. -/
def cloudFrontDynSample (getSampleRate : String → Int) (intn : Int → Int) (ev : Event) :
    Option Event :=
  let rate := clampRate (getSampleRate (cfSampleKey ev.data))
  if intn rate = 0 then some { ev with sampleRate := rate } else none

/-- One iteration of the older `CloudfrontEventParser.DynSample`: the
draw only decides whether the sample rate is set; the event itself is
always forwarded (`out <- ev` sits outside the `if`). -/
def cloudfrontOldDynSample (getSampleRate : String → Int) (intn : Int → Int) (ev : Event) :
    Event :=
  let rate := clampRate (getSampleRate (cfSampleKey ev.data))
  if intn rate = 0 then { ev with sampleRate := rate } else ev

/-- Contribution of the backend status code field to the sample key:
decimal rendering for an int, the sentinel `"0"` for a present non-int
value, nothing when absent. -/
def statusKeyPart : Option FieldValue → String
  | some (FieldValue.int n) => toString n
  | some _ => "0"
  | none => ""

/-- Contribution of an int-typed secondary field (`elb_status_code`):
`"_"` followed by its decimal rendering when present as an int, nothing
otherwise. -/
def intKeyPart : Option FieldValue → String
  | some (FieldValue.int n) => "_" ++ toString n
  | _ => ""

/-- Contribution of a string-typed secondary field (`elb`, `cs`): `"_"`
followed by the string when present as a string, nothing otherwise. -/
def strKeyPart : Option FieldValue → String
  | some (FieldValue.str s) => "_" ++ s
  | _ => ""

/-- Modelled from the words of the claim: the load-balancer sample key
with every absent discriminating field omitted from the concatenation
with no placeholder and no separator, i.e. the present contributions
joined by `"_"` only between them. -/
def claimedElbSampleKey (data : List (String × FieldValue)) : String :=
  String.intercalate "_"
    ((match data.lookup "backend_status_code" with
      | some (FieldValue.int bsc) => [toString bsc]
      | some _ => ["0"]
      | none => [])
    ++ (match data.lookup "elb_status_code" with
      | some (FieldValue.int esc) => [toString esc]
      | _ => [])
    ++ (match data.lookup "elb" with
      | some (FieldValue.str name) => [name]
      | _ => []))

/-- C5 counterexample: with `backend_status_code` absent but
`elb_status_code` and `elb` present, the code's key keeps the `"_"`
separator introduced by the later fields and so starts with a dangling
underscore, while a key built with the claim's no-separator omission
rule does not: the two disagree. -/
theorem sample_key_separator_counterexample :
    elbSampleKey [("elb_status_code", FieldValue.int 200), ("elb", FieldValue.str "mylb")]
      = "_200_mylb" ∧
    claimedElbSampleKey
        [("elb_status_code", FieldValue.int 200), ("elb", FieldValue.str "mylb")]
      = "200_mylb" ∧
    elbSampleKey [("elb_status_code", FieldValue.int 200), ("elb", FieldValue.str "mylb")]
      ≠ claimedElbSampleKey
        [("elb_status_code", FieldValue.int 200), ("elb", FieldValue.str "mylb")] := by
  refine ⟨rfl, rfl, ?_⟩
  decide

/-- C5 (amended): the sample key is a deterministic, total function of
the discriminating fields only — it equals the concatenation of the
three (resp. two) per-field contributions, so two events agreeing on
those lookups get equal keys regardless of any other field; a present
non-int backend status code contributes the sentinel `"0"`; but when an
earlier field is absent the `"_"` prefixed by each later present field
remains in the key (no separator is *added* between present fields
beyond each contribution's own `"_"` prefix). -/
theorem sample_key_amended :
    (∀ data : List (String × FieldValue),
      elbSampleKey data
        = statusKeyPart (data.lookup "backend_status_code")
          ++ intKeyPart (data.lookup "elb_status_code")
          ++ strKeyPart (data.lookup "elb")) ∧
    (∀ data : List (String × FieldValue),
      cfSampleKey data
        = statusKeyPart (data.lookup "sc-status") ++ strKeyPart (data.lookup "cs")) ∧
    (∀ d₁ d₂ : List (String × FieldValue),
      d₁.lookup "backend_status_code" = d₂.lookup "backend_status_code" →
      d₁.lookup "elb_status_code" = d₂.lookup "elb_status_code" →
      d₁.lookup "elb" = d₂.lookup "elb" →
      elbSampleKey d₁ = elbSampleKey d₂) ∧
    (∀ d₁ d₂ : List (String × FieldValue),
      d₁.lookup "sc-status" = d₂.lookup "sc-status" →
      d₁.lookup "cs" = d₂.lookup "cs" →
      cfSampleKey d₁ = cfSampleKey d₂) ∧
    (∀ (data : List (String × FieldValue)) (s : String),
      data.lookup "backend_status_code" = some (FieldValue.str s) →
      ∃ rest, elbSampleKey data = "0" ++ rest) := by
  have helb : ∀ data : List (String × FieldValue),
      elbSampleKey data
        = statusKeyPart (data.lookup "backend_status_code")
          ++ intKeyPart (data.lookup "elb_status_code")
          ++ strKeyPart (data.lookup "elb") := by
    intro data
    simp only [elbSampleKey]
    generalize data.lookup "backend_status_code" = ob
    generalize data.lookup "elb_status_code" = oe
    generalize data.lookup "elb" = oc
    rcases ob with _ | (n1 | s1 | _) <;> rcases oe with _ | (n2 | s2 | _) <;>
      rcases oc with _ | (n3 | s3 | _) <;>
      simp [statusKeyPart, intKeyPart, strKeyPart, String.append_assoc]
  have hcf : ∀ data : List (String × FieldValue),
      cfSampleKey data
        = statusKeyPart (data.lookup "sc-status") ++ strKeyPart (data.lookup "cs") := by
    intro data
    simp only [cfSampleKey]
    generalize data.lookup "sc-status" = ob
    generalize data.lookup "cs" = oc
    rcases ob with _ | (n1 | s1 | _) <;> rcases oc with _ | (n3 | s3 | _) <;>
      simp [statusKeyPart, strKeyPart, String.append_assoc]
  refine ⟨helb, hcf, ?_, ?_, ?_⟩
  · intro d₁ d₂ h1 h2 h3
    rw [helb d₁, helb d₂, h1, h2, h3]
  · intro d₁ d₂ h1 h2
    rw [hcf d₁, hcf d₂, h1, h2]
  · intro data s hlk
    refine ⟨intKeyPart (data.lookup "elb_status_code")
      ++ strKeyPart (data.lookup "elb"), ?_⟩
    rw [helb data, hlk]
    simp only [statusKeyPart]
    rw [String.append_assoc]

theorem sample_key_amended_witness :
    elbSampleKey
        [("backend_status_code", FieldValue.int 500),
         ("elb_status_code", FieldValue.int 502),
         ("elb", FieldValue.str "mylb"), ("request", FieldValue.str "GET /a")]
      = elbSampleKey
        [("request", FieldValue.str "GET /b"),
         ("backend_status_code", FieldValue.int 500),
         ("elb_status_code", FieldValue.int 502),
         ("elb", FieldValue.str "mylb")] ∧
    cfSampleKey [("sc-status", FieldValue.int 404), ("cs", FieldValue.str "d.net"),
         ("cs-uri-stem", FieldValue.str "/x")]
      = cfSampleKey [("cs-uri-stem", FieldValue.str "/y"),
         ("sc-status", FieldValue.int 404), ("cs", FieldValue.str "d.net")] ∧
    ∃ rest, elbSampleKey [("backend_status_code", FieldValue.str "oops")] = "0" ++ rest := by
  refine ⟨?_, ?_, ?_⟩
  · exact sample_key_amended.2.2.1 _ _ (by decide) (by decide) (by decide)
  · exact sample_key_amended.2.2.2.1 _ _ (by decide) (by decide)
  · exact sample_key_amended.2.2.2.2 _ "oops" (by decide)

/-- C4 counterexample: the older `CloudfrontEventParser.DynSample`
forwards an event even when the draw is non-zero (it only skips setting
the sample rate), so it is not true that in every parser variant an
event whose draw is non-zero is dropped. -/
theorem cfold_forwards_rejected_counterexample :
    cloudfrontOldDynSample (fun _ => 2) (fun _ => 1) ⟨0, [], 0⟩ = ⟨0, [], 0⟩ ∧
    (1 : Int) ≠ 0 := by
  exact ⟨rfl, by decide⟩

/-- C4 (amended): in `ELBEventParser.DynSample` and
`CloudFrontEventParser.DynSample` an event is forwarded (with its
sample rate set to the clamped estimator rate) iff the draw is zero and
dropped otherwise; the older `CloudfrontEventParser.DynSample` instead
forwards every event, and the zero draw only decides whether the sample
rate field is set. -/
theorem dynsample_accept_amended :
    (∀ g i ev, i (clampRate (g (elbSampleKey ev.data))) = 0 →
      elbDynSample g i ev
        = some { ev with sampleRate := clampRate (g (elbSampleKey ev.data)) }) ∧
    (∀ g i ev, i (clampRate (g (elbSampleKey ev.data))) ≠ 0 →
      elbDynSample g i ev = none) ∧
    (∀ g i ev, i (clampRate (g (cfSampleKey ev.data))) = 0 →
      cloudFrontDynSample g i ev
        = some { ev with sampleRate := clampRate (g (cfSampleKey ev.data)) }) ∧
    (∀ g i ev, i (clampRate (g (cfSampleKey ev.data))) ≠ 0 →
      cloudFrontDynSample g i ev = none) ∧
    (∀ g i ev, i (clampRate (g (cfSampleKey ev.data))) = 0 →
      cloudfrontOldDynSample g i ev
        = { ev with sampleRate := clampRate (g (cfSampleKey ev.data)) }) ∧
    (∀ g i ev, i (clampRate (g (cfSampleKey ev.data))) ≠ 0 →
      cloudfrontOldDynSample g i ev = ev) := by
  refine ⟨?_, ?_, ?_, ?_, ?_, ?_⟩ <;> intro g i ev h <;>
    simp only [elbDynSample, cloudFrontDynSample, cloudfrontOldDynSample] <;>
    simp [h]

theorem dynsample_accept_amended_witness :
    elbDynSample (fun _ => 3) (fun _ => 1) ⟨0, [], 0⟩ = none ∧
    cloudFrontDynSample (fun _ => 3) (fun _ => 0) ⟨0, [], 0⟩ = some ⟨0, [], 3⟩ ∧
    cloudfrontOldDynSample (fun _ => 3) (fun _ => 1) ⟨0, [], 0⟩ = ⟨0, [], 0⟩ := by
  refine ⟨?_, ?_, ?_⟩
  · exact dynsample_accept_amended.2.1 (fun _ => 3) (fun _ => 1) ⟨0, [], 0⟩ (by decide)
  · exact dynsample_accept_amended.2.2.1 (fun _ => 3) (fun _ => 0) ⟨0, [], 0⟩ (by decide)
  · exact dynsample_accept_amended.2.2.2.2.2 (fun _ => 3) (fun _ => 1) ⟨0, [], 0⟩ (by decide)

/-- C6: the clamped rate is always positive, so `rand.Intn` is never
invoked with a non-positive bound; a non-positive estimator rate is
clamped to `1`, and (under `Intn`'s contract that the draw lies in
`[0, n)` for positive `n`) with rate `1` the draw must be `0`, so for
an estimator rate `r ≤ 0` — and likewise for `r = 1` — every event is
accepted, with its sample rate set to `1`. -/
theorem rate_clamp_safe :
    (∀ rate : Int, 0 < clampRate rate) ∧
    (∀ rate : Int, rate ≤ 0 → clampRate rate = 1) ∧
    (∀ g i ev, (∀ n : Int, 0 < n → 0 ≤ i n ∧ i n < n) →
      g (elbSampleKey ev.data) ≤ 0 →
      elbDynSample g i ev = some { ev with sampleRate := 1 }) ∧
    (∀ g i ev, (∀ n : Int, 0 < n → 0 ≤ i n ∧ i n < n) →
      g (cfSampleKey ev.data) ≤ 0 →
      cloudFrontDynSample g i ev = some { ev with sampleRate := 1 }) ∧
    (∀ g i ev, (∀ n : Int, 0 < n → 0 ≤ i n ∧ i n < n) →
      g (elbSampleKey ev.data) = 1 →
      elbDynSample g i ev = some { ev with sampleRate := 1 }) ∧
    (∀ g i ev, (∀ n : Int, 0 < n → 0 ≤ i n ∧ i n < n) →
      g (cfSampleKey ev.data) = 1 →
      cloudFrontDynSample g i ev = some { ev with sampleRate := 1 }) := by
  have hpos : ∀ rate : Int, 0 < clampRate rate := by
    intro rate
    unfold clampRate
    split <;> omega
  have hle : ∀ rate : Int, rate ≤ 0 → clampRate rate = 1 := by
    intro rate h
    unfold clampRate
    rw [if_pos h]
  have hone : clampRate 1 = 1 := by decide
  have hdraw : ∀ i : Int → Int, (∀ n : Int, 0 < n → 0 ≤ i n ∧ i n < n) → i 1 = 0 := by
    intro i hi
    have h := hi 1 (by decide)
    omega
  refine ⟨hpos, hle, ?_, ?_, ?_, ?_⟩ <;> intro g i ev hi hg <;>
    simp only [elbDynSample, cloudFrontDynSample] <;>
    rw [show clampRate _ = 1 from by first | exact hle _ hg | rw [hg]; exact hone] <;>
    rw [hdraw i hi] <;>
    simp

theorem rate_clamp_safe_witness :
    elbDynSample (fun _ => -3) (fun _ => 0) ⟨0, [], 0⟩ = some ⟨0, [], 1⟩ ∧
    cloudFrontDynSample (fun _ => 1) (fun _ => 0) ⟨0, [], 0⟩ = some ⟨0, [], 1⟩ := by
  constructor
  · exact rate_clamp_safe.2.2.1 (fun _ => -3) (fun _ => 0) ⟨0, [], 0⟩
      (fun n hn => ⟨le_refl 0, hn⟩) (by decide)
  · exact rate_clamp_safe.2.2.2.2.2 (fun _ => 1) (fun _ => 0) ⟨0, [], 0⟩
      (fun n hn => ⟨le_refl 0, hn⟩) (by decide)

/-!
Line handling and the per-object `ParseEvents` loops. File contents are
a `List String` of raw lines; the tokenizer goroutine is an oracle
`resp : Nat → Option Event` giving, for the k-th submitted line
(0-based), the event it emits before the per-line one-second deadline —
`none` meaning the deadline fires first.
-/

/-- `unicode.IsSpace` on the code points relevant to log lines
(Latin-1 range, as used by Go's `strings.Fields`). -/
def isSpace (c : Char) : Bool :=
  c == ' ' || c == '\t' || c == '\n' || c == '\x0b' || c == '\x0c' || c == '\r' ||
    c == '\u0085' || c == ' '

/-- Worker for `fields`: accumulate the current field (reversed) and cut
at every run of whitespace. -/
def fieldsAux : List Char → List Char → List String
  | [], acc => if acc = [] then [] else [⟨acc.reverse⟩]
  | c :: cs, acc =>
    if isSpace c then
      if acc = [] then fieldsAux cs []
      else ⟨acc.reverse⟩ :: fieldsAux cs []
    else fieldsAux cs (c :: acc)

/-- `strings.Fields`: the whitespace-delimited fields of a line, with no
empty fields, regardless of the amount of whitespace between them. -/
def fields (line : String) : List String := fieldsAux line.data []

/-- The skip test of every `ParseEvents` loop:
`line == "" || strings.HasPrefix(line, "#")`. -/
def skipLine (line : String) : Bool :=
  line == "" || (match line.data with | c :: _ => c == '#' | [] => false)

/-- `strings.Join(fields, " ")`: one space between adjacent fields. -/
def joinFields : List String → String
  | [] => ""
  | [f] => f
  | f :: fs => f ++ " " ++ joinFields fs

/-- The CloudFront date/time rejoin: split the line into fields, join
the first two with a literal `"T"`, keep the rest, and re-join with
single spaces. The Go code indexes `splitLine[0]` and `splitLine[1]`
unconditionally; a line with fewer than two fields makes it panic with
an index-out-of-range error, modelled as `none`. -/
def rejoinFields (line : String) : Option String :=
  match fields line with
  | f0 :: f1 :: rest => some (joinFields ((f0 ++ "T" ++ f1) :: rest))
  | _ => none

/-- Outcome of `ELBEventParser.ParseEvents`: either every line was
tokenized (the forwarded events, in order) or the per-line deadline
fired, with the `nLines` counter the error message reports (`# done so
far: %d`). -/
inductive ElbParseResult where
  | ok (events : List Event)
  | stall (nLines : Nat)
  deriving DecidableEq, Repr

/-- The scan loop of `ELBEventParser.ParseEvents` (`publisher/elb.go`):
`nLines` is incremented for every scanned line (skipped ones included)
before the skip test; each non-skipped line is submitted and the loop
waits for its event or the deadline. -/
def elbParseEventsAux (resp : Nat → Option Event) :
    List String → Nat → Nat → ElbParseResult
  | [], _, _ => ElbParseResult.ok []
  | line :: rest, nLines, k =>
    if skipLine line then elbParseEventsAux resp rest (nLines + 1) k
    else
      match resp k with
      | none => ElbParseResult.stall (nLines + 1)
      | some ev =>
        match elbParseEventsAux resp rest (nLines + 1) (k + 1) with
        | ElbParseResult.ok evs => ElbParseResult.ok (ev :: evs)
        | r => r

/-- `ELBEventParser.ParseEvents` on the lines of the downloaded file. -/
def elbParseEvents (resp : Nat → Option Event) (lines : List String) : ElbParseResult :=
  elbParseEventsAux resp lines 0 0

/-- Ground truth about an `ELBEventParser.ParseEvents` run: the number
of lines whose event was confirmed and the number of lines submitted to
the tokenizer before the run ends (at a stall, the stalled line has
been submitted but not confirmed and the run aborts). -/
def elbRunCounts (resp : Nat → Option Event) : List String → Nat → Nat × Nat
  | [], _ => (0, 0)
  | line :: rest, k =>
    if skipLine line then elbRunCounts resp rest k
    else
      match resp k with
      | none => (0, 1)
      | some _ =>
        let p := elbRunCounts resp rest (k + 1)
        (p.1 + 1, p.2 + 1)

/-- The value of the `nLines` counter at the first stalled submission of
an `ELBEventParser.ParseEvents` run, if the run stalls at all. -/
def elbScannedAtStall (resp : Nat → Option Event) :
    List String → Nat → Nat → Option Nat
  | [], _, _ => none
  | line :: rest, nLines, k =>
    if skipLine line then elbScannedAtStall resp rest (nLines + 1) k
    else
      match resp k with
      | none => some (nLines + 1)
      | some _ => elbScannedAtStall resp rest (nLines + 1) (k + 1)

/-- Outcome of `CloudFrontEventParser.ParseEvents`
(`publisher/cloudfront.go`): parsed events, a deadline stall reporting
its `nLines` counter, or the index-out-of-range panic of the date/time
rejoin. -/
inductive CfParseResult where
  | ok (events : List Event)
  | stall (nLines : Nat)
  | outOfRange
  deriving DecidableEq, Repr

/-- The scan loop of `CloudFrontEventParser.ParseEvents`: like the ELB
loop but each submitted line is first rewritten by `rejoinFields`. -/
def cfParseEventsAux (resp : Nat → Option Event) :
    List String → Nat → Nat → CfParseResult
  | [], _, _ => CfParseResult.ok []
  | line :: rest, nLines, k =>
    if skipLine line then cfParseEventsAux resp rest (nLines + 1) k
    else
      match rejoinFields line with
      | none => CfParseResult.outOfRange
      | some _ =>
        match resp k with
        | none => CfParseResult.stall (nLines + 1)
        | some ev =>
          match cfParseEventsAux resp rest (nLines + 1) (k + 1) with
          | CfParseResult.ok evs => CfParseResult.ok (ev :: evs)
          | r => r

/-- `CloudFrontEventParser.ParseEvents` on the lines of the object. -/
def cfParseEvents (resp : Nat → Option Event) (lines : List String) : CfParseResult :=
  cfParseEventsAux resp lines 0 0

/-- Outcome of the older `CloudfrontEventParser.ParseEvents`
(two-phase): parsed events, a stall reporting the `(i, nLines)` pair of
its error message (`%s/%s parsed, deadline exceeded`), or the
index-out-of-range panic of the rejoin. -/
inductive CfOldParseResult where
  | ok (events : List Event)
  | stall (done total : Nat)
  | outOfRange
  deriving DecidableEq, Repr

/-- Phase one of the older `CloudfrontEventParser.ParseEvents`: submit
every non-skipped line, rewritten by `rejoinFields`, counting `nLines`;
`none` when some line has fewer than two fields (the rejoin panics). -/
def cfOldSubmitLines : List String → Option (List String)
  | [] => some []
  | line :: rest =>
    if skipLine line then cfOldSubmitLines rest
    else
      match rejoinFields line with
      | none => none
      | some l => (cfOldSubmitLines rest).map (l :: ·)

/-- Phase two of the older `CloudfrontEventParser.ParseEvents`: receive
`total` events; at index `i`, a missed deadline aborts with the
`(i, total)` stall error. The remaining-iterations counter is the
argument; the current index is `total` minus it. -/
def cfOldCollect (resp : Nat → Option Event) (total : Nat) : Nat → CfOldParseResult
  | 0 => CfOldParseResult.ok []
  | n + 1 =>
    match resp (total - (n + 1)) with
    | none => CfOldParseResult.stall (total - (n + 1)) total
    | some ev =>
      match cfOldCollect resp total n with
      | CfOldParseResult.ok evs => CfOldParseResult.ok (ev :: evs)
      | r => r

/-- The older `CloudfrontEventParser.ParseEvents`: submit all lines,
then collect as many events as lines were submitted. -/
def cfOldParseEvents (resp : Nat → Option Event) (lines : List String) : CfOldParseResult :=
  match cfOldSubmitLines lines with
  | none => CfOldParseResult.outOfRange
  | some ls => cfOldCollect resp ls.length ls.length

/-!
`HoneycombPublisher.Publish` (`publisher/publisher.go`): run
`ParseEvents`; on success delete the local file (`os.Remove`, whose
outcome is environmental and modelled by the `removeFails` flag); then
mark the object processed in the state store. The events themselves flow
through a channel, so `ParseEvents` is abstracted here by its returned
`Except String Unit`.
-/

/-- State touched by one `Publish` call: the dedup state file and
whether the downloaded local file still exists. -/
structure IngestState where
  dedup : StateFile
  fileExists : Bool
  deriving DecidableEq, Repr

/-- `HoneycombPublisher.Publish`: propagate a `ParseEvents` error as is;
otherwise delete the file (failure aborts with a wrapped error); then
`SetProcessed` the object id (failure aborts with a wrapped error). -/
def Publish (parseResult : Except String Unit) (removeFails : Bool) (objId : String)
    (st : IngestState) : Except String Unit × IngestState :=
  match parseResult with
  | Except.error e => (Except.error e, st)
  | Except.ok () =>
    if removeFails then
      (Except.error "Error cleaning up downloaded object", st)
    else
      let st := { st with fileExists := false }
      match SetProcessed st.dedup objId with
      | (Except.error e, d) =>
        (Except.error ("Error setting state of object as processed: " ++ e),
          { st with dedup := d })
      | (Except.ok (), d) => (Except.ok (), { st with dedup := d })

/-- C3: `Publish` marks the object processed only after `ParseEvents`
succeeded and the local file was deleted: a pipeline error is returned
as is with the dedup state and the file untouched; a deletion failure
aborts with the file still present and the object unmarked; on the
success path the file is deleted and `SetProcessed` runs on the dedup
state. -/
theorem publish_ordering :
    (∀ (e : String) (removeFails : Bool) (objId : String) (st : IngestState),
      Publish (Except.error e) removeFails objId st = (Except.error e, st)) ∧
    (∀ (objId : String) (st : IngestState),
      Publish (Except.ok ()) true objId st
        = (Except.error "Error cleaning up downloaded object", st)) ∧
    (∀ (objId : String) (st : IngestState),
      Publish (Except.ok ()) false objId st
        = (Except.ok (), ⟨(SetProcessed st.dedup objId).2, false⟩)) := by
  refine ⟨fun e removeFails objId st => rfl, fun objId st => rfl, fun objId st => ?_⟩
  obtain ⟨⟨c⟩, f⟩ := st
  cases c <;> rfl

/-- C10: the CDN parsers index the split line at positions 0 and 1
unconditionally, so a non-blank, non-comment line with exactly one
whitespace-delimited field makes both `ParseEvents` variants go out of
range (a Go panic) instead of returning an error; only lines with at
least two fields are rejoined. -/
theorem cdn_single_field_out_of_range :
    skipLine "abc" = false ∧
    (fields "abc").length = 1 ∧
    rejoinFields "abc" = none ∧
    (∀ resp, cfParseEvents resp ["abc"] = CfParseResult.outOfRange) ∧
    (∀ resp, cfOldParseEvents resp ["abc"] = CfOldParseResult.outOfRange) := by
  exact ⟨rfl, rfl, rfl, fun resp => rfl, fun resp => rfl⟩

/-- C8: the line submitted to the tokenizer by the CDN parsers is a
function of the field list alone (so any two lines with the same fields
— whatever their original spacing — are submitted identically), and for
a line whose fields are `f0 :: f1 :: rest` it is `f0 ++ "T" ++ f1`
followed by the remaining fields, all separated by exactly one space. -/
theorem timestamp_rejoin :
    (∀ l₁ l₂ : String, fields l₁ = fields l₂ → rejoinFields l₁ = rejoinFields l₂) ∧
    (∀ (line f0 f1 : String) (rest : List String),
      fields line = f0 :: f1 :: rest →
      rejoinFields line = some (joinFields ((f0 ++ "T" ++ f1) :: rest))) := by
  constructor
  · intro l₁ l₂ h
    unfold rejoinFields
    rw [h]
  · intro line f0 f1 rest h
    unfold rejoinFields
    rw [h]

theorem timestamp_rejoin_witness :
    fields "2024-01-01   12:00:00.000Z  GET   /index.html"
      = ["2024-01-01", "12:00:00.000Z", "GET", "/index.html"] ∧
    rejoinFields "2024-01-01   12:00:00.000Z  GET   /index.html"
      = some "2024-01-01T12:00:00.000Z GET /index.html" ∧
    rejoinFields "2024-01-01   12:00:00.000Z  GET   /index.html"
      = rejoinFields "2024-01-01 12:00:00.000Z GET /index.html" := by
  refine ⟨by decide, ?_, ?_⟩
  · have h := timestamp_rejoin.2 "2024-01-01   12:00:00.000Z  GET   /index.html"
      "2024-01-01" "12:00:00.000Z" ["GET", "/index.html"]
    exact h (by decide)
  · exact timestamp_rejoin.1 _ _ (by decide)

/-- C2 counterexample: on an object whose first line is blank and whose
second line the tokenizer never answers, `ELBEventParser.ParseEvents`
stalls with the single counter `2` in its error — but the run confirmed
`0` lines and submitted `1`, so the error reports neither the confirmed
nor the submitted count. -/
theorem elb_stall_report_counterexample :
    elbParseEvents (fun _ => none) ["", "a"] = ElbParseResult.stall 2 ∧
    elbRunCounts (fun _ => none) ["", "a"] 0 = (0, 1) ∧
    (2 : Nat) ≠ 0 ∧ (2 : Nat) ≠ 1 := by
  exact ⟨rfl, rfl, by decide, by decide⟩

lemma elb_stall_of_scanned (resp : Nat → Option Event) :
    ∀ (lines : List String) (nLines k n : Nat),
      elbScannedAtStall resp lines nLines k = some n →
      elbParseEventsAux resp lines nLines k = ElbParseResult.stall n := by
  intro lines
  induction lines with
  | nil =>
    intro nLines k n h
    simp [elbScannedAtStall] at h
  | cons line rest ih =>
    intro nLines k n h
    cases hs : skipLine line with
    | true =>
      simp only [elbScannedAtStall, hs, if_true] at h
      simp only [elbParseEventsAux, hs, if_true]
      exact ih (nLines + 1) k n h
    | false =>
      simp only [elbScannedAtStall, hs, Bool.false_eq_true, if_false] at h
      simp only [elbParseEventsAux, hs, Bool.false_eq_true, if_false]
      cases hr : resp k with
      | none =>
        rw [hr] at h
        simp only at h
        obtain rfl : nLines + 1 = n := Option.some.inj h
        rfl
      | some ev =>
        rw [hr] at h
        simp only at h
        rw [ih (nLines + 1) (k + 1) n h]

lemma cfold_collect_stall (resp : Nat → Option Event) (total : Nat) :
    ∀ n i : Nat, n ≤ total → total - n ≤ i → i < total →
      (∀ j, total - n ≤ j → j < i → (resp j).isSome) →
      resp i = none →
      cfOldCollect resp total n = CfOldParseResult.stall i total := by
  intro n
  induction n with
  | zero =>
    intro i h1 h2 h3 h4 h5
    omega
  | succ n ih =>
    intro i h1 h2 h3 h4 h5
    simp only [cfOldCollect]
    by_cases hi : total - (n + 1) = i
    · rw [hi, h5]
    · have hlt : total - (n + 1) < i := by omega
      have hsome := h4 (total - (n + 1)) (le_refl _) hlt
      obtain ⟨ev, hev⟩ := Option.isSome_iff_exists.mp hsome
      rw [hev]
      rw [ih i (by omega) (by omega) h3 (fun j hj1 hj2 => h4 j (by omega) hj2) h5]

/-- C2 (amended): a tokenizer stall always yields an explicit stall
error and the object is never marked processed (`Publish` propagates
the error with the dedup store untouched) — but only the older
CloudFront parser's error reports confirmed versus submitted counts:
if every submission before index `i` is answered and submission `i`
stalls, it reports `(i, total)` with `i` the confirmed count and
`total` the number of submitted lines; the ELB parser's error instead
reports the single running `nLines` counter of scanned lines (blank
and comment lines included). -/
theorem stall_error_amended :
    (∀ (resp : Nat → Option Event) (lines : List String) (n : Nat),
      elbScannedAtStall resp lines 0 0 = some n →
      elbParseEvents resp lines = ElbParseResult.stall n) ∧
    (∀ (resp : Nat → Option Event) (lines ls : List String) (i : Nat),
      cfOldSubmitLines lines = some ls → i < ls.length →
      (∀ j, j < i → (resp j).isSome) → resp i = none →
      cfOldParseEvents resp lines = CfOldParseResult.stall i ls.length) ∧
    (∀ (e : String) (removeFails : Bool) (objId : String) (st : IngestState),
      Publish (Except.error e) removeFails objId st = (Except.error e, st)) := by
  refine ⟨?_, ?_, fun e removeFails objId st => rfl⟩
  · intro resp lines n h
    exact elb_stall_of_scanned resp lines 0 0 n h
  · intro resp lines ls i hsub hi hbefore hstall
    unfold cfOldParseEvents
    rw [hsub]
    exact cfold_collect_stall resp ls.length ls.length i (le_refl _) (by omega) hi
      (fun j hj1 hj2 => hbefore j hj2) hstall

theorem stall_error_amended_witness :
    elbParseEvents (fun _ => none) ["a"] = ElbParseResult.stall 1 ∧
    cfOldParseEvents (fun j => if j == 0 then some ⟨0, [], 0⟩ else none)
        ["a b", "c d", "e f"]
      = CfOldParseResult.stall 1 3 ∧
    Publish (Except.error "stall") false "obj1" ⟨⟨none⟩, true⟩
      = (Except.error "stall", ⟨⟨none⟩, true⟩) := by
  refine ⟨?_, ?_, ?_⟩
  · exact stall_error_amended.1 (fun _ => none) ["a"] 1 (by decide)
  · exact stall_error_amended.2.1 (fun j => if j == 0 then some ⟨0, [], 0⟩ else none)
      ["a b", "c d", "e f"] ["aTb", "cTd", "eTf"] 1 (by decide) (by decide)
      (by decide) (by decide)
  · exact stall_error_amended.2.2 "stall" false "obj1" ⟨⟨none⟩, true⟩
